import Mathlib

/-!
Verification development for the `train_pgdp_ocr` data-labeler.

The claims under study concern the line editors
(`src/data_labeler/nicegui_line_editor.py`, `src/data_labeler/ipynb_line_editor.py`)
and the labeler (`src/data_labeler/ipynb_labeler.py`).  Those modules build on the
`pd_book_tools` core (geometry, Word/Block/Page entities, the ground-truth
alignment engine and JSON persistence), which is not part of the repository
sources; the core entities and operations are therefore modelled from the
specification (each such definition carries a doc comment starting with
"Modelled from the spec:"), while everything that lives in the repository's
editor/labeler code is translated from that code directly.

Conventions: machine floats of the Python code are modelled by exact rationals;
a raster image is a row-major boolean pixel grid (`true` = foreground ink);
Python's `dict`-backed caches are association lists.
-/

set_option linter.unusedVariables false

/-- Pixel grid of a raster page image, row-major; `true` is a foreground (ink)
pixel.  Models the decoded `cv2` numpy buffer attached to a page. -/
abbrev PixelImage := List (List Bool)

/-- Width (number of pixel columns) of an image, read like `ndarray.shape[1]`. -/
def imgWidth (img : PixelImage) : ℕ := ((img.head?).getD []).length

/-- Height (number of pixel rows) of an image, read like `ndarray.shape[0]`. -/
def imgHeight (img : PixelImage) : ℕ := img.length

/-- Pixel lookup; out-of-range coordinates read as background. -/
def pixelAt (img : PixelImage) (x y : ℕ) : Bool :=
  (((img.get? y).getD []).get? x).getD false

/-- Does pixel column `x`, restricted to rows `y0 ≤ y < y1`, contain ink? -/
def colHasInk (img : PixelImage) (x y0 y1 : ℕ) : Bool :=
  (List.range' y0 (y1 - y0)).any fun y => pixelAt img x y

/-- Does pixel row `y`, restricted to columns `x0 ≤ x < x1`, contain ink? -/
def rowHasInk (img : PixelImage) (y x0 x1 : ℕ) : Bool :=
  (List.range' x0 (x1 - x0)).any fun x => pixelAt img x y

/-- Modelled from the spec: a bounding box is four scalar edges, stored
normalized to the unit square relative to the page image (`pd_book_tools`
geometry module, absent from src/).  Scalars are exact rationals. -/
structure BoundingBox where
  minX : ℚ
  minY : ℚ
  maxX : ℚ
  maxY : ℚ
deriving DecidableEq, Repr

/-- Modelled from the spec: the union of two boxes is the min of the mins and
the max of the maxes on every edge. -/
def BoundingBox.union (a b : BoundingBox) : BoundingBox :=
  ⟨min a.minX b.minX, min a.minY b.minY, max a.maxX b.maxX, max a.maxY b.maxY⟩

/-- Clamped floor of a rational into `[0, n]`, used to convert a normalized
coordinate into a pixel index. -/
def ratToPixel (q : ℚ) (n : ℕ) : ℕ := min (Int.toNat (Int.floor q)) n

/-- Grow the left edge leftward while the column just outside contains ink. -/
def growLeft (img : PixelImage) (y0 y1 : ℕ) : ℕ → ℕ → ℕ
  | 0, x0 => x0
  | fuel + 1, x0 =>
    if 0 < x0 ∧ colHasInk img (x0 - 1) y0 y1 then growLeft img y0 y1 fuel (x0 - 1)
    else x0

/-- Grow the right (exclusive) edge rightward while the column just outside
contains ink, stopping at the image bound `w`. -/
def growRight (img : PixelImage) (y0 y1 w : ℕ) : ℕ → ℕ → ℕ
  | 0, x1 => x1
  | fuel + 1, x1 =>
    if x1 < w ∧ colHasInk img x1 y0 y1 then growRight img y0 y1 w fuel (x1 + 1)
    else x1

/-- Grow the top edge upward while the row just outside contains ink. -/
def growTop (img : PixelImage) (x0 x1 : ℕ) : ℕ → ℕ → ℕ
  | 0, y0 => y0
  | fuel + 1, y0 =>
    if 0 < y0 ∧ rowHasInk img (y0 - 1) x0 x1 then growTop img x0 x1 fuel (y0 - 1)
    else y0

/-- Grow the bottom (exclusive) edge downward while the row just outside
contains ink, stopping at the image bound `h`. -/
def growBottom (img : PixelImage) (x0 x1 h : ℕ) : ℕ → ℕ → ℕ
  | 0, y1 => y1
  | fuel + 1, y1 =>
    if y1 < h ∧ rowHasInk img y1 x0 x1 then growBottom img x0 x1 h fuel (y1 + 1)
    else y1

/-- Modelled from the spec: `expand_to_content` grows a box outward on all four
sides while the adjacent row/column just outside the current edge contains
foreground pixels, stopping at image bounds. -/
def BoundingBox.expand_to_content (bb : BoundingBox) (img : PixelImage) : BoundingBox :=
  let w := imgWidth img
  let h := imgHeight img
  if w = 0 ∨ h = 0 then bb else
  let x0 := ratToPixel (bb.minX * w) w
  let x1 := ratToPixel (bb.maxX * w) w
  let y0 := ratToPixel (bb.minY * h) h
  let y1 := ratToPixel (bb.maxY * h) h
  let x0' := growLeft img y0 y1 w x0
  let x1' := growRight img y0 y1 w w x1
  let y0' := growTop img x0' x1' h y0
  let y1' := growBottom img x0' x1' h h y1
  ⟨(x0' : ℚ) / w, (y0' : ℚ) / h, (x1' : ℚ) / w, (y1' : ℚ) / h⟩

/-- Modelled from the spec: `refine` shrinks a box to the tightest box
containing all foreground pixels inside it, then re-expands by a fixed pixel
padding on every side, clipped to the image bounds; a box with no foreground
content is returned unchanged. -/
def BoundingBox.refine (bb : BoundingBox) (img : PixelImage) (padding_px : ℕ) : BoundingBox :=
  let w := imgWidth img
  let h := imgHeight img
  if w = 0 ∨ h = 0 then bb else
  let x0 := ratToPixel (bb.minX * w) w
  let x1 := ratToPixel (bb.maxX * w) w
  let y0 := ratToPixel (bb.minY * h) h
  let y1 := ratToPixel (bb.maxY * h) h
  let xs := (List.range' x0 (x1 - x0)).filter fun x => colHasInk img x y0 y1
  let ys := (List.range' y0 (y1 - y0)).filter fun y => rowHasInk img y x0 x1
  match xs.min?, xs.max?, ys.min?, ys.max? with
  | some a, some b, some c, some d =>
    ⟨((a - padding_px : ℕ) : ℚ) / w, ((c - padding_px : ℕ) : ℚ) / h,
     (min (b + 1 + padding_px) w : ℚ) / w, (min (d + 1 + padding_px) h : ℚ) / h⟩
  | _, _, _, _ => bb

/-- Modelled from the spec: an OCR-detected token with its OCR text, owned
bounding box, assigned ground-truth text and the `match_score` entry of
`ground_truth_match_keys` (`none` models an absent key). -/
structure Word where
  text : String
  bounding_box : BoundingBox
  ground_truth_text : String
  match_score : Option ℕ
deriving DecidableEq, Repr

/-- Levenshtein edit distance between two character lists, fuel-guarded so
that the recursion is structural (every step consumes one fuel unit and at
least one character; with fuel = total length the guard is never hit). -/
def levDistF : ℕ → List Char → List Char → ℕ
  | 0, _, _ => 0
  | _ + 1, [], ys => ys.length
  | _ + 1, _ :: xs, [] => xs.length + 1
  | fuel + 1, x :: xs, y :: ys =>
    if x = y then levDistF fuel xs ys
    else 1 + min (levDistF fuel xs ys)
          (min (levDistF fuel (x :: xs) ys) (levDistF fuel xs (y :: ys)))

/-- Levenshtein edit distance between two character lists. -/
def levDist (a b : List Char) : ℕ := levDistF (a.length + b.length) a b

/-- Modelled from the spec: a standard normalized string-similarity score in
`0..100`, `100` exactly on equal strings (the spec leaves the concrete
similarity function open; a Levenshtein-based one is used). -/
def fuzzScore (a b : String) : ℕ :=
  let m := max a.data.length b.data.length
  if m = 0 then 100 else (100 * (m - levDist a.data b.data)) / m

/-- Fuzzy score of this word's OCR text against a candidate ground truth,
as used by the editors (`word.fuzz_score_against(...)`). -/
def Word.fuzz_score_against (w : Word) (s : String) : ℕ := fuzzScore w.text s

/-- Modelled from the spec: merging an adjacent word into this one
concatenates the texts in order and takes the union of the two boxes; the
ground-truth data of the absorbing word is left as is (stale until the next
realignment, which the spec assigns to the caller). -/
def Word.merge (a b : Word) : Word :=
  ⟨a.text ++ b.text, a.bounding_box.union b.bounding_box,
   a.ground_truth_text, a.match_score⟩

/-- Modelled from the spec: a Line (`pd_book_tools` Block) is the ordered word
sequence `items`, the full proofread text `base_ground_truth_text` assigned to
the line, the `(insertion_index, text)` pairs of ground-truth words with no OCR
partner, and the open attribute mapping used for UI flags. -/
structure Block where
  items : List Word
  base_ground_truth_text : String
  unmatched_ground_truth_words : List (ℕ × String)
  additional_block_attributes : List (String × Bool)
deriving DecidableEq, Repr

/-- Modelled from the spec: `ground_truth_exact_match` is the derived property
"every word's match_score is 100 and there are no unmatched ground-truth
words" (the spec defines it by this very "true iff"). -/
def Block.ground_truth_exact_match (b : Block) : Bool :=
  (b.items.all fun w => w.match_score == some 100) &&
    b.unmatched_ground_truth_words.isEmpty

/-- Modelled from the spec: `split_word` replaces word `split_word_index` by
two words: the left word keeps `text[:character_split_index]` and the box from
the original left edge to the (word-width-relative) split offset, the right
word keeps the rest of the text and the box from the offset to the original
right edge.  Out-of-range parameters are rejected (`none`). -/
def Block.split_word (b : Block) (split_word_index : ℕ) (bbox_split_offset : ℚ)
    (character_split_index : ℕ) : Option Block :=
  if h : split_word_index < b.items.length then
    let w := b.items[split_word_index]
    if 0 < bbox_split_offset ∧ bbox_split_offset < 1 ∧
        character_split_index ≤ w.text.data.length then
      let bb := w.bounding_box
      let xmid := bb.minX + bbox_split_offset * (bb.maxX - bb.minX)
      let leftWord : Word :=
        ⟨String.mk (w.text.data.take character_split_index),
         ⟨bb.minX, bb.minY, xmid, bb.maxY⟩, "", none⟩
      let rightWord : Word :=
        ⟨String.mk (w.text.data.drop character_split_index),
         ⟨xmid, bb.minY, bb.maxX, bb.maxY⟩, "", none⟩
      some { b with items := b.items.take split_word_index ++
               leftWord :: rightWord :: b.items.drop (split_word_index + 1) }
    else none
  else none

/-- Modelled from the spec: `refine_bounding_boxes` refines every word box of
the line against the image. -/
def Block.refine_bounding_boxes (b : Block) (img : PixelImage) (padding_px : ℕ) : Block :=
  { b with items := b.items.map fun w =>
      { w with bounding_box := w.bounding_box.refine img padding_px } }

/-- Fuel-guarded optimal alignment similarity (the fuel of the wrappers below
is the total token count, so the guard is never hit). -/
def alignScoreF : ℕ → List String → List String → ℕ
  | 0, _, _ => 0
  | _ + 1, [], _ => 0
  | _ + 1, _ :: _, [] => 0
  | fuel + 1, x :: xs, y :: ys =>
    max (fuzzScore x y + alignScoreF fuel xs ys)
      (max (alignScoreF fuel (x :: xs) ys) (alignScoreF fuel xs (y :: ys)))

/-- Modelled from the spec: optimal total similarity of a Needleman-Wunsch
style alignment of the two token sequences (gap cost 0, pair reward = fuzzy
similarity). -/
def alignScore (xs ys : List String) : ℕ := alignScoreF (xs.length + ys.length) xs ys

/-- Fuel-guarded alignment traceback. -/
def alignPairsF : ℕ → List String → List String → List (Option String × Option String)
  | 0, _, _ => []
  | _ + 1, [], [] => []
  | fuel + 1, [], y :: ys => (none, some y) :: alignPairsF fuel [] ys
  | fuel + 1, x :: xs, [] => (some x, none) :: alignPairsF fuel xs []
  | fuel + 1, x :: xs, y :: ys =>
    let sM := fuzzScore x y + alignScore xs ys
    let sG := alignScore (x :: xs) ys
    let sD := alignScore xs (y :: ys)
    if sG ≤ sM ∧ sD ≤ sM then (some x, some y) :: alignPairsF fuel xs ys
    else if sD ≤ sG then (none, some y) :: alignPairsF fuel (x :: xs) ys
    else (some x, none) :: alignPairsF fuel xs (y :: ys)

/-- Modelled from the spec: traceback of the alignment underlying
`alignScore`; each pair is (OCR token?, ground-truth token?), at least one side
present, orders preserved. -/
def alignPairs (xs ys : List String) : List (Option String × Option String) :=
  alignPairsF (xs.length + ys.length) xs ys

/-- Ground-truth partner (or `none`) for each OCR token, in OCR order, read
off an alignment traceback. -/
def gtAssignments (ps : List (Option String × Option String)) : List (Option String) :=
  ps.filterMap fun p => match p.1 with | some _ => some p.2 | none => none

/-- Modelled from the spec: the `(insertion_index, text)` records for
ground-truth words with no OCR partner; the index is the position of the OCR
word after which the ground-truth word would be re-inserted (index 0 when no
OCR word precedes it). -/
def unmatchedGtWords : List (Option String × Option String) → ℕ → List (ℕ × String)
  | [], _ => []
  | (some _, _) :: ps, seen => unmatchedGtWords ps (seen + 1)
  | (none, some g) :: ps, seen => (seen - 1, g) :: unmatchedGtWords ps seen
  | (none, none) :: ps, seen => unmatchedGtWords ps seen

/-- Modelled from the spec: `update_line_with_ground_truth` re-runs the
alignment engine for a line from scratch: every aligned OCR word receives its
ground-truth text and a recomputed fuzzy `match_score`; every unaligned OCR
word receives empty ground truth and score 0; `unmatched_ground_truth_words`
is replaced by the fresh unmatched records. -/
def update_line_with_ground_truth (b : Block) (ocr_line_tuple : List String)
    (ground_truth_tuple : List String) : Block :=
  let ps := alignPairs ocr_line_tuple ground_truth_tuple
  { b with
    items := List.zipWith
      (fun w g? => match g? with
        | some g => { w with ground_truth_text := g,
                             match_score := some (w.fuzz_score_against g) }
        | none => { w with ground_truth_text := "", match_score := some 0 })
      b.items (gtAssignments ps)
    unmatched_ground_truth_words := unmatchedGtWords ps 0 }

/-- Python `list.insert`: insert at position `n`, clamped to the list length. -/
def pyInsert {α : Type} (n : ℕ) (a : α) (l : List α) : List α :=
  l.take n ++ a :: l.drop n

/-- Python `str.split(sep)` semantics for a single-character separator on
character lists: empty fields are kept, the empty string yields one empty
field. -/
def splitOnSpaceChars : List Char → List (List Char)
  | [] => [[]]
  | c :: rest =>
    match splitOnSpaceChars rest with
    | [] => [[c]]
    | g :: gs => if c = Char.ofNat 32 then [] :: g :: gs else (c :: g) :: gs

/-- Python `s.split(" ")` on a string. -/
def pySplitSpace (s : String) : List String :=
  (splitOnSpaceChars s.data).map String.mk

/-- One row of the editors' `line_matches` state: the fields of the Python
match dict that carry model state (`word_idx`, the word reference — `none` for
an unmatched ground-truth entry — the OCR text, the ground-truth text, and the
final running index `idx`).  The image payloads and display colors of the dict
are presentation-only and not modelled. -/
structure MatchEntry where
  word_idx : ℕ
  word : Option Word
  ocr_text : String
  gt_text : String
  idx : ℕ
deriving DecidableEq, Repr

/-- Match row for the OCR word at position `i` of the line. -/
def wordEntry (i : ℕ) (w : Word) : MatchEntry :=
  ⟨i, some w, w.text, w.ground_truth_text, 0⟩

/-- Match row for an unmatched ground-truth pair `(insertion_index, text)`:
`word_idx` is `insertion_index + 1`, there is no word, the OCR text is empty.
Translated from the unmatched branch of `calculate_line_matches`. -/
def gtWordEntry (p : ℕ × String) : MatchEntry :=
  ⟨p.1 + 1, none, "", p.2, 0⟩

/-- One match row per OCR word of the line, in line order. -/
def baseMatches (b : Block) : List MatchEntry :=
  b.items.enum.map fun q => wordEntry q.1 q.2

/-- The unmatched ground-truth rows are inserted in reverse list order, each at
position `insertion_index + 1` of the current list (Python `list.insert`).
Translated from the insertion loop of `calculate_line_matches`. -/
def insertUnmatched (u : List (ℕ × String)) (acc : List MatchEntry) : List MatchEntry :=
  u.reverse.foldl (fun acc p => pyInsert (p.1 + 1) (gtWordEntry p) acc) acc

/-- Final pass of `calculate_line_matches`: store each row's running index in
its `idx` field. -/
def withIdx (l : List MatchEntry) : List MatchEntry :=
  l.enum.map fun q => { q.2 with idx := q.1 }

/-- Translated from `calculate_line_matches` of both line editors: one row per
OCR word in line order, then the unmatched ground-truth rows inserted in
reverse order at `insertion_index + 1`, then the running `idx` pass. -/
def calculate_line_matches (b : Block) : List MatchEntry :=
  withIdx (insertUnmatched b.unmatched_ground_truth_words (baseMatches b))

/-- Translated from `IpynbLineEditor.merge_left` (and the word-merging core of
`NiceGuiLineEditor.merge_left`): if the selected word is not the first one, the
previous word absorbs it in place and the absorbed word is removed from the
line; otherwise the call is a guarded no-op.  The editor only ever passes the
`word_idx` of an existing word; an out-of-range index is modelled as the same
no-op. -/
def ipynb_merge_left (b : Block) (word_idx : ℕ) : Block :=
  if h : 0 < word_idx ∧ word_idx < b.items.length then
    let word := b.items.get (Fin.mk word_idx h.2)
    let prev_word := b.items.get (Fin.mk (word_idx - 1) (by omega))
    { b with items := (b.items.set (word_idx - 1) (prev_word.merge word)).eraseIdx word_idx }
  else b

/-- Translated from `IpynbLineEditor.merge_right`: if the selected word is not
the last one, it absorbs the next word in place and the next word is removed;
otherwise a guarded no-op. -/
def ipynb_merge_right (b : Block) (word_idx : ℕ) : Block :=
  if h : word_idx < b.items.length - 1 then
    let word := b.items.get (Fin.mk word_idx (by omega))
    let next_word := b.items.get (Fin.mk (word_idx + 1) (by omega))
    { b with items := (b.items.set word_idx (word.merge next_word)).eraseIdx (word_idx + 1) }
  else b

/-- Translated from `NiceGuiLineEditor.merge_left`: the guard is on the row's
position in `line_matches`; at position 0 (or a position that does not resolve
to two word-bearing rows) nothing happens, otherwise the previous row's word
absorbs the selected row's word and the absorbed word is removed. -/
def nicegui_merge_left (b : Block) (match_idx : ℕ) : Block :=
  if match_idx = 0 then b
  else
    match (calculate_line_matches b).get? match_idx,
          (calculate_line_matches b).get? (match_idx - 1) with
    | some cur, some prev =>
      match cur.word, prev.word with
      | some cw, some pw =>
        { b with items := (b.items.set prev.word_idx (pw.merge cw)).eraseIdx cur.word_idx }
      | _, _ => b
    | _, _ => b

/-- Translated from `NiceGuiLineEditor.merge_right`: the guard is on the word
index; on the last word (or beyond) nothing happens, otherwise the selected
word absorbs the next word in place and the next word is removed. -/
def nicegui_merge_right (b : Block) (word_idx : ℕ) : Block :=
  if h : word_idx < b.items.length - 1 then
    let word := b.items.get (Fin.mk word_idx (by omega))
    let next_word := b.items.get (Fin.mk (word_idx + 1) (by omega))
    { b with items := (b.items.set word_idx (word.merge next_word)).eraseIdx (word_idx + 1) }
  else b

/-- Translated from `delete_match` of both editors, word-bearing branch: the
word referenced by the row is removed from the line. -/
def delete_match_word (b : Block) (word_idx : ℕ) : Block :=
  { b with items := b.items.eraseIdx word_idx }

/-- Translated from `delete_match` of both editors, unmatched branch: the line
keeps exactly the unmatched pairs whose insertion index differs from the row's
`word_idx` AND whose text differs from the row's `gt_text`. -/
def delete_match_unmatched (b : Block) (e : MatchEntry) : Block :=
  { b with unmatched_ground_truth_words :=
      b.unmatched_ground_truth_words.filter fun p =>
        decide (p.1 ≠ e.word_idx) && decide (p.2 ≠ e.gt_text) }

/-- Translated from `delete_match` of both editors: dispatch on whether the
row carries a word. -/
def delete_match (b : Block) (e : MatchEntry) : Block :=
  match e.word with
  | some _ => delete_match_word b e.word_idx
  | none => delete_match_unmatched b e

/-- Translated from `update_gt_text` of both editors: the word's ground-truth
text is replaced and its match score recomputed against the new text. -/
def update_gt_text (b : Block) (word_idx : ℕ) (new_text : String) : Block :=
  if h : word_idx < b.items.length then
    let w := b.items[word_idx]
    let w' : Word := { w with ground_truth_text := new_text,
                              match_score := some (w.fuzz_score_against new_text) }
    { b with items := b.items.set word_idx w' }
  else b

/-- Translated from `copy_ocr_to_gt` of both editors: every word's ground
truth becomes its OCR text and its match score is recomputed against it. -/
def copy_ocr_to_gt (b : Block) : Block :=
  { b with items := b.items.map fun w =>
      { w with ground_truth_text := w.text,
               match_score := some (w.fuzz_score_against w.text) } }

/-- Split-task state read by `execute_split`: the word index of the selected
row, the pixel width of the word's cropped image (`img_ndarray.shape[1]`), the
selected split pixel coordinate and the character split index. -/
structure SplitTask where
  word_idx : ℕ
  img_w : ℕ
  x : ℕ
  char_idx : ℕ
deriving DecidableEq, Repr

/-- Translated from `NiceGuiLineEditor.execute_split`: the normalized split
offset is the split pixel coordinate divided by the width of the word's
cropped image. -/
def nicegui_normalized_split_offset (t : SplitTask) : ℚ := (t.x : ℚ) / (t.img_w : ℚ)

/-- Translated from `IpynbLineEditor.execute_split`: the normalized split
offset is the split pixel coordinate divided by the width of the FULL page
image. -/
def ipynb_normalized_split_offset (t : SplitTask) (full_w : ℕ) : ℚ :=
  (t.x : ℚ) / (full_w : ℚ)

/-- Geometry pass both editors run after `split_word`: expand every word box
to content, then refine all boxes with 1px padding. -/
def postSplitGeometry (img : PixelImage) (b : Block) : Block :=
  Block.refine_bounding_boxes
    { b with items := b.items.map fun w =>
        { w with bounding_box := w.bounding_box.expand_to_content img } }
    img 1

/-- Translated from `NiceGuiLineEditor.execute_split`: split the word at the
word-width-normalized offset, expand and refine the boxes, then re-run the
ground-truth alignment with the line's current word texts against
`base_ground_truth_text` split on spaces (empty tuple when the base text is
empty). -/
def nicegui_execute_split (img : PixelImage) (b : Block) (t : SplitTask) : Option Block :=
  (b.split_word t.word_idx (nicegui_normalized_split_offset t) t.char_idx).map fun b1 =>
    let b3 := postSplitGeometry img b1
    let ocr_line_tuple := b3.items.map Word.text
    let ground_truth_tuple :=
      if b3.base_ground_truth_text ≠ "" then pySplitSpace b3.base_ground_truth_text else []
    update_line_with_ground_truth b3 ocr_line_tuple ground_truth_tuple

/-- Translated from `IpynbLineEditor.execute_split`: split the word at the
page-width-normalized offset, expand and refine the boxes, then re-run the
ground-truth alignment with the line's current word texts against
`base_ground_truth_text` split on spaces. -/
def ipynb_execute_split (img : PixelImage) (b : Block) (t : SplitTask) : Option Block :=
  (b.split_word t.word_idx (ipynb_normalized_split_offset t (imgWidth img)) t.char_idx).map fun b1 =>
    let b3 := postSplitGeometry img b1
    let ocr_line_tuple := b3.items.map Word.text
    let ground_truth_tuple := pySplitSpace b3.base_ground_truth_text
    update_line_with_ground_truth b3 ocr_line_tuple ground_truth_tuple

/-- The structural edit operations the line editors offer on a line. -/
inductive EditOp where
  | splitWord (img : PixelImage) (t : SplitTask)
  | mergeLeft (word_idx : ℕ)
  | mergeRight (word_idx : ℕ)
  | deleteWord (word_idx : ℕ)
  | deleteUnmatched (e : MatchEntry)
  | gtTextChange (word_idx : ℕ) (new_text : String)
  | copyOcrToGt

/-- Apply one editor operation to a line (a rejected split leaves the line as
it was, matching the error-propagation contract). -/
def applyEdit (op : EditOp) (b : Block) : Block :=
  match op with
  | .splitWord img t => (ipynb_execute_split img b t).getD b
  | .mergeLeft i => ipynb_merge_left b i
  | .mergeRight i => ipynb_merge_right b i
  | .deleteWord i => delete_match_word b i
  | .deleteUnmatched e => delete_match_unmatched b e
  | .gtTextChange i s => update_gt_text b i s
  | .copyOcrToGt => copy_ocr_to_gt b

/-- Modelled from the spec: a Page is the ordered line sequence plus the
lazily attached raster image (never persisted, `none` when absent). -/
structure Page where
  items : List Block
  cv2_numpy_page_image : Option PixelImage
deriving DecidableEq, Repr

/-- Modelled from the spec: the top-level persisted unit, one or more pages
plus provenance metadata; `source_path` is `none` when the document carries no
source image path. -/
structure Document where
  pages : List Page
  source_lib : String
  source_path : Option String
deriving DecidableEq, Repr

/-- JSON values of the interchange format. -/
inductive Json where
  | str : String → Json
  | num : ℚ → Json
  | bool : Bool → Json
  | null : Json
  | arr : List Json → Json
  | obj : List (String × Json) → Json

/-- Field lookup in a JSON object. -/
def jlookup (k : String) : Json → Option Json
  | .obj kvs => kvs.lookup k
  | _ => none

/-- Modelled from the spec: the JSON record of one word,
`{text, bbox:[minX,minY,maxX,maxY], ground_truth_text, match_score}` (an
absent score is stored as null). -/
def word_to_json (w : Word) : Json :=
  .obj [("text", .str w.text),
        ("bbox", .arr [.num w.bounding_box.minX, .num w.bounding_box.minY,
                       .num w.bounding_box.maxX, .num w.bounding_box.maxY]),
        ("ground_truth_text", .str w.ground_truth_text),
        ("match_score", match w.match_score with | some n => .num n | none => .null)]

/-- Parse one word record back; malformed records yield `none`. -/
def word_from_json (j : Json) : Option Word :=
  match jlookup "text" j, jlookup "bbox" j,
        jlookup "ground_truth_text" j, jlookup "match_score" j with
  | some (.str t), some (.arr [.num a, .num c, .num x, .num y]),
      some (.str g), some ms =>
    match ms with
    | .null => some ⟨t, ⟨a, c, x, y⟩, g, none⟩
    | .num q =>
      if h : q.den = 1 ∧ 0 ≤ q.num then some ⟨t, ⟨a, c, x, y⟩, g, some q.num.toNat⟩
      else none
    | _ => none
  | _, _, _, _ => none

/-- Parse every element of a JSON list, failing if any element fails. -/
def parseList {α : Type} (f : Json → Option α) : List Json → Option (List α)
  | [] => some []
  | j :: js =>
    match f j, parseList f js with
    | some a, some as => some (a :: as)
    | _, _ => none

/-- Serialize one unmatched ground-truth pair as `[idx, text]`. -/
def pair_to_json (p : ℕ × String) : Json := .arr [.num p.1, .str p.2]

/-- Parse one unmatched ground-truth pair. -/
def pair_from_json (j : Json) : Option (ℕ × String) :=
  match j with
  | .arr [.num q, .str t] =>
    if h : q.den = 1 ∧ 0 ≤ q.num then some (q.num.toNat, t) else none
  | _ => none

/-- Serialize one attribute flag. -/
def attr_to_json (p : String × Bool) : String × Json := (p.1, .bool p.2)

/-- Parse one attribute flag. -/
def attr_from_json (p : String × Json) : Option (String × Bool) :=
  match p.2 with
  | .bool v => some (p.1, v)
  | _ => none

/-- Parse every attribute flag of a JSON object, failing if any fails. -/
def parseAttrs : List (String × Json) → Option (List (String × Bool))
  | [] => some []
  | p :: ps =>
    match attr_from_json p, parseAttrs ps with
    | some a, some as => some (a :: as)
    | _, _ => none

/-- Modelled from the spec: the JSON record of one line. -/
def block_to_json (b : Block) : Json :=
  .obj [("words", .arr (b.items.map word_to_json)),
        ("base_ground_truth_text", .str b.base_ground_truth_text),
        ("unmatched_ground_truth_words", .arr (b.unmatched_ground_truth_words.map pair_to_json)),
        ("attributes", .obj (b.additional_block_attributes.map attr_to_json))]

/-- Parse one line record back. -/
def block_from_json (j : Json) : Option Block :=
  match jlookup "words" j, jlookup "base_ground_truth_text" j,
        jlookup "unmatched_ground_truth_words" j, jlookup "attributes" j with
  | some (.arr ws), some (.str base), some (.arr us), some (.obj attrs) =>
    match parseList word_from_json ws, parseList pair_from_json us,
          parseAttrs attrs with
    | some items, some unmatched, some as => some ⟨items, base, unmatched, as⟩
    | _, _, _ => none
  | _, _, _, _ => none

/-- Modelled from the spec: the JSON record of one page; the raster image is
deliberately not part of the record. -/
def page_to_json (p : Page) : Json :=
  .obj [("lines", .arr (p.items.map block_to_json))]

/-- Parse one page record back; the image is not persisted, so the parsed page
carries no image. -/
def page_from_json (j : Json) : Option Page :=
  match jlookup "lines" j with
  | some (.arr ls) =>
    match parseList block_from_json ls with
    | some items => some ⟨items, none⟩
    | none => none
  | _ => none

/-- Modelled from the spec: the persisted document record
`{pages, source_lib, source_path}` (Document.to_json_file). -/
def document_to_json (d : Document) : Json :=
  .obj [("pages", .arr (d.pages.map page_to_json)),
        ("source_lib", .str d.source_lib),
        ("source_path", match d.source_path with | some p => .str p | none => .null)]

/-- Parse a persisted document back (Document.from_json_file). -/
def document_from_json (j : Json) : Option Document :=
  match jlookup "pages" j, jlookup "source_lib" j, jlookup "source_path" j with
  | some (.arr ps), some (.str lib), some sp =>
    match parseList page_from_json ps with
    | some pages =>
      match sp with
      | .null => some ⟨pages, lib, none⟩
      | .str p => some ⟨pages, lib, some p⟩
      | _ => none
    | none => none
  | _, _, _ => none

/-- A page with its image detached, as it comes back from persistence. -/
def stripImage (p : Page) : Page := { p with cv2_numpy_page_image := none }

/-- Translated from `IpynbLabeler.export_ocr_document`: the current page is
wrapped into a one-page Document whose `source_path` is the target image path
next to the JSON file, the document is serialized, and the page image FILE is
copied alongside (returned as the (from, to) copy instruction); pixels are
never placed into the JSON. -/
def export_ocr_document (ocr_page : Page) (ocr_image_path target_image_path : String) :
    Json × (String × String) :=
  (document_to_json ⟨[ocr_page], "doctr-pgdp-labeled", some target_image_path⟩,
   (ocr_image_path, target_image_path))

/-- The labeler's per-page-index OCR cache `matched_ocr_pages`, an association
list from page index to the cached Page. -/
abbrev OcrCache := List (ℕ × Page)

/-- Lookup of a page index in the cache. -/
def cacheLookup (c : OcrCache) (i : ℕ) : Option Page :=
  match c with
  | [] => none
  | (j, p) :: rest => if j = i then some p else cacheLookup rest i

/-- Python dict assignment `cache[i] = page`: replaces any previous entry. -/
def cacheInsert (c : OcrCache) (i : ℕ) (p : Page) : OcrCache :=
  (i, p) :: c.filter fun q => q.1 != i

/-- Translated from `IpynbLabeler.import_ocr_document`: when no saved JSON
exists for the page the call returns silently; a saved document with a page
count other than one, or without a source image path, raises before the cache
is touched; otherwise the single page gets the image read from the source path
and replaces the cache entry for the current page index.  The result is the
cache after the call plus the raised error, if any. -/
def labeler_import_ocr_document (saved : Option Document) (disk : String → Option PixelImage)
    (idx : ℕ) (cache : OcrCache) : OcrCache × Option String :=
  match saved with
  | none => (cache, none)
  | some doc =>
    match doc.pages, doc.source_path with
    | [pg], some p =>
      (cacheInsert cache idx { pg with cv2_numpy_page_image := disk p }, none)
    | [_], none => (cache, some "OCR document does not contain a source image path.")
    | _, _ => (cache, some "OCR document must contain exactly one page.")

/-- Translated from `IpynbLabeler.run_ocr`: first the saved document (if any)
is imported — an import error propagates with the cache untouched — then the
OCR engine is invoked exactly when the page index has no cache entry or a
forced refresh was requested, and its freshly built page replaces the cache
entry.  The external OCR pipeline (doctr + reorganize + add_ground_truth) is
the abstract `engine`.  Result: cache after the call, raised error if any, and
whether the engine was invoked. -/
def run_ocr (saved : Option Document) (disk : String → Option PixelImage)
    (engine : ℕ → Page) (idx : ℕ) (force_refresh_ocr : Bool) (cache : OcrCache) :
    OcrCache × Option String × Bool :=
  match labeler_import_ocr_document saved disk idx cache with
  | (c1, some e) => (c1, some e, false)
  | (c1, none) =>
    if (cacheLookup c1 idx).isNone || force_refresh_ocr then
      (cacheInsert c1 idx (engine idx), none, true)
    else (c1, none, false)

/-- Reading of claim C8's placement property: the match list consists, for each
word position `j` in order, of the word's row followed by the rows of exactly
the unmatched pairs whose insertion index is `j`, in their stored order. -/
def specRowsFrom : ℕ → List Word → List (ℕ × String) → List MatchEntry
  | _, [], _ => []
  | j, w :: ws, u =>
    wordEntry j w ::
      (((u.filter fun p => p.1 == j).map gtWordEntry) ++ specRowsFrom (j + 1) ws u)

/-- Claim C8's interleaving of word rows and unmatched ground-truth rows. -/
def specRows (items : List Word) (u : List (ℕ × String)) : List MatchEntry :=
  specRowsFrom 0 items u

/-- The left word produced by a split: text up to the character index, box from
the original left edge to the offset. -/
def splitLeftWord (w : Word) (off : ℚ) (c : ℕ) : Word :=
  ⟨String.mk (w.text.data.take c),
   ⟨w.bounding_box.minX, w.bounding_box.minY,
    w.bounding_box.minX + off * (w.bounding_box.maxX - w.bounding_box.minX),
    w.bounding_box.maxY⟩, "", none⟩

/-- The right word produced by a split: remaining text, box from the offset to
the original right edge. -/
def splitRightWord (w : Word) (off : ℚ) (c : ℕ) : Word :=
  ⟨String.mk (w.text.data.drop c),
   ⟨w.bounding_box.minX + off * (w.bounding_box.maxX - w.bounding_box.minX),
    w.bounding_box.minY, w.bounding_box.maxX, w.bounding_box.maxY⟩, "", none⟩

/-- Agreement of two words on the fields the alignment engine reads and keeps
(OCR text and bounding box); the ground-truth fields may differ. -/
def SameShape (v w : Word) : Prop := v.text = w.text ∧ v.bounding_box = w.bounding_box

/-- Sample unit box for concrete instances. -/
def unitBox : BoundingBox := ⟨0, 0, 1, 1⟩

/-- Sample word carrying a stale ground-truth assignment. -/
def sampleWordA : Word := ⟨"a", unitBox, "ab", some 66⟩

/-- Sample word with an empty-ground-truth assignment. -/
def sampleWordB : Word := ⟨"b", unitBox, "c", some 0⟩

/-- Sample two-word line with base ground truth "ab c". -/
def sampleLine : Block := ⟨[sampleWordA, sampleWordB], "ab c", [], []⟩

/-- Sample line with two unmatched ground-truth pairs. -/
def sampleLineUnmatched : Block :=
  ⟨[sampleWordA, sampleWordB], "ab c", [(0, "x"), (1, "y")], []⟩

/-- Sample one-line page. -/
def samplePage : Page := ⟨[sampleLine], none⟩

/-- Sample rewriting of a word's ground-truth data (text and box are kept). -/
def staleGt (w : Word) : Word :=
  { w with ground_truth_text := "stale", match_score := some 3 }

/-! Helper lemmas. -/

lemma pyInsert_succ_cons {α : Type} (k : ℕ) (e x : α) (xs : List α) :
    pyInsert (k + 1) e (x :: xs) = x :: pyInsert k e xs := by
  simp [pyInsert]

lemma pyInsert_zero {α : Type} (e : α) (xs : List α) : pyInsert 0 e xs = e :: xs := by
  simp [pyInsert]

lemma pyInsert_length {α : Type} (n : ℕ) (a : α) (l : List α) :
    (pyInsert n a l).length = l.length + 1 := by
  simp [pyInsert]
  omega

lemma insertUnmatched_eq_foldr (u : List (ℕ × String)) (acc : List MatchEntry) :
    insertUnmatched u acc =
      u.foldr (fun p acc => pyInsert (p.1 + 1) (gtWordEntry p) acc) acc := by
  simp [insertUnmatched, List.foldl_reverse]

lemma insertUnmatched_length (u : List (ℕ × String)) (acc : List MatchEntry) :
    (insertUnmatched u acc).length = acc.length + u.length := by
  rw [insertUnmatched_eq_foldr]
  induction u with
  | nil => simp
  | cons p rest ih =>
    simp only [List.foldr_cons, pyInsert_length, ih, List.length_cons]
    omega

lemma insertUnmatched_head (u : List (ℕ × String)) (acc : List MatchEntry) (h : acc ≠ []) :
    (insertUnmatched u acc).head? = acc.head? ∧ insertUnmatched u acc ≠ [] := by
  rw [insertUnmatched_eq_foldr]
  induction u with
  | nil => exact ⟨rfl, h⟩
  | cons p rest ih =>
    rcases ih with ⟨ih1, ih2⟩
    simp only [List.foldr_cons]
    rcases hX : rest.foldr (fun p acc => pyInsert (p.1 + 1) (gtWordEntry p) acc) acc with
      _ | ⟨x, xs⟩
    · exact absurd hX ih2
    · rw [hX] at ih1
      rw [hX, pyInsert_succ_cons]
      exact ⟨by simpa using ih1, by simp⟩

lemma withIdx_head (l : List MatchEntry) :
    (withIdx l).head? = l.head?.map (fun e => { e with idx := 0 }) := by
  cases l <;> simp [withIdx, List.enum_cons]

lemma withIdx_length (l : List MatchEntry) : (withIdx l).length = l.length := by
  simp [withIdx]

lemma specRowsFrom_nil_u (j : ℕ) (ws : List Word) :
    specRowsFrom j ws [] = (ws.enumFrom j).map fun q => wordEntry q.1 q.2 := by
  induction ws generalizing j with
  | nil => rfl
  | cons w ws ih => simp [specRowsFrom, List.enumFrom, ih]

lemma specRowsFrom_cons_lt (ws : List Word) (j : ℕ) (p : ℕ × String) (u : List (ℕ × String))
    (hp : p.1 < j) : specRowsFrom j ws (p :: u) = specRowsFrom j ws u := by
  induction ws generalizing j with
  | nil => rfl
  | cons w ws ih =>
    have hne : (p.1 == j) = false := by simp; omega
    simp [specRowsFrom, List.filter_cons, hne, ih (j + 1) (by omega)]

lemma pyInsert_specRowsFrom (ws : List Word) (j : ℕ) (u : List (ℕ × String)) (p : ℕ × String)
    (hj : j ≤ p.1) (hlt : p.1 < j + ws.length) (hall : ∀ q ∈ u, p.1 ≤ q.1) :
    pyInsert (p.1 + 1 - j) (gtWordEntry p) (specRowsFrom j ws u) =
      specRowsFrom j ws (p :: u) := by
  induction ws generalizing j with
  | nil => exact absurd hlt (by simp; omega)
  | cons w ws ih =>
    rcases Nat.eq_or_lt_of_le hj with heq | hlt2
    · have hpj : (p.1 == j) = true := by simp; omega
      have hpos : p.1 + 1 - j = 1 := by omega
      rw [hpos]
      simp [specRowsFrom, pyInsert_succ_cons, pyInsert_zero, List.filter_cons, hpj,
        specRowsFrom_cons_lt ws (j + 1) p u (by omega)]
    · have hne : (p.1 == j) = false := by simp; omega
      have hfil : u.filter (fun q => q.1 == j) = [] := by
        rw [List.filter_eq_nil]
        intro q hq
        have := hall q hq
        simp
        omega
      have hlt' : p.1 < (j + 1) + ws.length := by
        simp only [List.length_cons] at hlt
        omega
      have hpos : p.1 + 1 - j = (p.1 + 1 - (j + 1)) + 1 := by omega
      simp only [specRowsFrom, List.filter_cons, hne, hfil, List.map_nil, List.nil_append,
        Bool.false_eq_true, if_false]
      rw [hpos, pyInsert_succ_cons, ih (j + 1) (by omega) hlt']

lemma insertUnmatched_eq_specRows (items : List Word) (u : List (ℕ × String))
    (hs : u.Pairwise fun p q => p.1 ≤ q.1) (hb : ∀ p ∈ u, p.1 < items.length) :
    insertUnmatched u (items.enum.map fun q => wordEntry q.1 q.2) = specRows items u := by
  rw [insertUnmatched_eq_foldr]
  induction u with
  | nil =>
    simp only [List.foldr_nil, specRows, specRowsFrom_nil_u]
    rfl
  | cons p rest ih =>
    rcases List.pairwise_cons.mp hs with ⟨hall, hrest⟩
    simp only [List.foldr_cons]
    rw [ih hrest (fun q hq => hb q (List.mem_cons_of_mem _ hq))]
    have := pyInsert_specRowsFrom items 0 rest p (Nat.zero_le _)
      (by simpa using hb p (List.mem_cons_self _ _)) hall
    simpa [specRows] using this

lemma set_then_eraseIdx {α : Type} (l : List α) (k : ℕ) (m : α) (h : k + 1 < l.length) :
    (l.set k m).eraseIdx (k + 1) = l.take k ++ m :: l.drop (k + 2) := by
  induction k generalizing l with
  | zero =>
    match l, h with
    | a :: b :: rest, _ => simp [List.set, List.eraseIdx]
  | succ k ih =>
    match l, h with
    | a :: rest, h =>
      have h' : k + 1 < rest.length := by simpa using h
      simp [List.set, List.eraseIdx, ih rest h']

lemma cacheLookup_insert_self (c : OcrCache) (i : ℕ) (p : Page) :
    cacheLookup (cacheInsert c i p) i = some p := by
  simp [cacheInsert, cacheLookup]

lemma forall₂_map_sameShape (f : Word → Word)
    (hf : ∀ w, (f w).text = w.text ∧ (f w).bounding_box = w.bounding_box) (l : List Word) :
    List.Forall₂ SameShape (l.map f) l := by
  induction l with
  | nil => exact List.Forall₂.nil
  | cons w ws ih => exact List.Forall₂.cons (hf w) ih

lemma sameShape_texts {l l' : List Word} (h : List.Forall₂ SameShape l l') :
    l.map Word.text = l'.map Word.text := by
  induction h with
  | nil => rfl
  | cons ha _ ih => simp [ha.1, ih]

lemma sameShape_map_bbox {l l' : List Word} (h : List.Forall₂ SameShape l l')
    (F : BoundingBox → BoundingBox) :
    List.Forall₂ SameShape (l.map fun w => { w with bounding_box := F w.bounding_box })
      (l'.map fun w => { w with bounding_box := F w.bounding_box }) := by
  induction h with
  | nil => exact List.Forall₂.nil
  | cons ha _ ih => exact List.Forall₂.cons ⟨ha.1, by simp [ha.2]⟩ ih

lemma sameShape_get {l l' : List Word} (h : List.Forall₂ SameShape l l') (i : ℕ)
    (hi : i < l.length) (hi' : i < l'.length) :
    SameShape (l.get (Fin.mk i hi)) (l'.get (Fin.mk i hi')) := by
  rcases List.forall₂_iff_get.mp h with ⟨_, hg⟩
  exact hg i hi hi'

lemma split_word_eq_some {b : Block} {i : ℕ} {off : ℚ} {c : ℕ}
    (hi : i < b.items.length)
    (hc : 0 < off ∧ off < 1 ∧ c ≤ (b.items.get (Fin.mk i hi)).text.data.length) :
    b.split_word i off c = some
      { b with items := b.items.take i ++ splitLeftWord (b.items.get (Fin.mk i hi)) off c ::
          splitRightWord (b.items.get (Fin.mk i hi)) off c :: b.items.drop (i + 1) } := by
  have hc2 : 0 < off ∧ off < 1 ∧ c ≤ b.items[i].text.data.length := hc
  simp only [Block.split_word, dif_pos hi, if_pos hc2]
  rfl

lemma split_word_eq_none_of_invalid {b : Block} {i : ℕ} {off : ℚ} {c : ℕ}
    (h : ¬ (i < b.items.length) ∨
      (∃ hi : i < b.items.length,
        ¬ (0 < off ∧ off < 1 ∧ c ≤ (b.items.get (Fin.mk i hi)).text.data.length))) :
    b.split_word i off c = none := by
  rcases h with h | ⟨hi, hc⟩
  · simp only [Block.split_word, dif_neg h]
  · have hc2 : ¬ (0 < off ∧ off < 1 ∧ c ≤ b.items[i].text.data.length) := hc
    simp only [Block.split_word, dif_pos hi, if_neg hc2]

lemma split_word_shape {b b' : Block} (i : ℕ) (off : ℚ) (c : ℕ)
    (hitems : List.Forall₂ SameShape b.items b'.items)
    (hbase : b.base_ground_truth_text = b'.base_ground_truth_text)
    (hunm : b.unmatched_ground_truth_words = b'.unmatched_ground_truth_words)
    (hattr : b.additional_block_attributes = b'.additional_block_attributes) :
    (b.split_word i off c = none ∧ b'.split_word i off c = none) ∨
    ∃ s s', b.split_word i off c = some s ∧ b'.split_word i off c = some s' ∧
      List.Forall₂ SameShape s.items s'.items ∧
      s.base_ground_truth_text = s'.base_ground_truth_text ∧
      s.unmatched_ground_truth_words = s'.unmatched_ground_truth_words ∧
      s.additional_block_attributes = s'.additional_block_attributes := by
  have hlen := hitems.length_eq
  by_cases hi : i < b.items.length
  · have hi' : i < b'.items.length := by omega
    have hR := sameShape_get hitems i hi hi'
    by_cases hc : 0 < off ∧ off < 1 ∧ c ≤ (b.items.get (Fin.mk i hi)).text.data.length
    · have hc' : 0 < off ∧ off < 1 ∧ c ≤ (b'.items.get (Fin.mk i hi')).text.data.length := by
        rw [← hR.1]; exact hc
      right
      have hR2 : SameShape b.items[i] b'.items[i] := hR
      rw [split_word_eq_some hi hc, split_word_eq_some hi' hc']
      refine ⟨_, _, rfl, rfl, ?_, hbase, hunm, hattr⟩
      refine List.rel_append (List.forall₂_take i hitems) ?_
      refine List.Forall₂.cons
        ⟨by simp [splitLeftWord, hR2.1], by simp [splitLeftWord, hR2.2]⟩ ?_
      refine List.Forall₂.cons
        ⟨by simp [splitRightWord, hR2.1], by simp [splitRightWord, hR2.2]⟩ ?_
      exact List.forall₂_drop (i + 1) hitems
    · left
      have hc' : ¬ (0 < off ∧ off < 1 ∧ c ≤ (b'.items.get (Fin.mk i hi')).text.data.length) := by
        rw [← hR.1]; exact hc
      exact ⟨split_word_eq_none_of_invalid (Or.inr ⟨hi, hc⟩),
        split_word_eq_none_of_invalid (Or.inr ⟨hi', hc'⟩)⟩
  · have hi' : ¬ i < b'.items.length := by omega
    exact Or.inl ⟨split_word_eq_none_of_invalid (Or.inl hi),
      split_word_eq_none_of_invalid (Or.inl hi')⟩

lemma zipWith_assign_congr {l l' : List Word} (h : List.Forall₂ SameShape l l')
    (a : List (Option String)) :
    List.zipWith
      (fun w g? => match g? with
        | some g => { w with ground_truth_text := g,
                             match_score := some (w.fuzz_score_against g) }
        | none => { w with ground_truth_text := "", match_score := some 0 })
      l a =
    List.zipWith
      (fun w g? => match g? with
        | some g => { w with ground_truth_text := g,
                             match_score := some (w.fuzz_score_against g) }
        | none => { w with ground_truth_text := "", match_score := some 0 })
      l' a := by
  induction h generalizing a with
  | nil => rfl
  | cons ha hl ih =>
    rcases a with _ | ⟨g?, gs⟩
    · rfl
    · rename_i v w vs ws
      obtain ⟨v1, v2, v3, v4⟩ := v
      obtain ⟨w1, w2, w3, w4⟩ := w
      obtain ⟨ht, hb⟩ := ha
      simp only at ht hb
      subst ht; subst hb
      simp only [List.zipWith_cons_cons]
      rw [ih gs]
      cases g? <;> rfl

lemma update_line_congr {b b' : Block} (ocr gt : List String)
    (hitems : List.Forall₂ SameShape b.items b'.items)
    (hbase : b.base_ground_truth_text = b'.base_ground_truth_text)
    (hunm : b.unmatched_ground_truth_words = b'.unmatched_ground_truth_words)
    (hattr : b.additional_block_attributes = b'.additional_block_attributes) :
    update_line_with_ground_truth b ocr gt = update_line_with_ground_truth b' ocr gt := by
  obtain ⟨i1, s1, u1, a1⟩ := b
  obtain ⟨i2, s2, u2, a2⟩ := b'
  simp only at hitems hbase hunm hattr
  subst hbase; subst hunm; subst hattr
  simp only [update_line_with_ground_truth]
  congr 1
  exact zipWith_assign_congr hitems _

lemma postSplitGeometry_shape (img : PixelImage) {b b' : Block}
    (hitems : List.Forall₂ SameShape b.items b'.items) :
    List.Forall₂ SameShape (postSplitGeometry img b).items
      (postSplitGeometry img b').items := by
  simp only [postSplitGeometry, Block.refine_bounding_boxes]
  exact sameShape_map_bbox
    (sameShape_map_bbox hitems fun bb => bb.expand_to_content img)
    fun bb => bb.refine img 1

lemma postSplitGeometry_base (img : PixelImage) (b : Block) :
    (postSplitGeometry img b).base_ground_truth_text = b.base_ground_truth_text := rfl

lemma split_word_base {b : Block} {i : ℕ} {off : ℚ} {c : ℕ} {s : Block}
    (h : b.split_word i off c = some s) :
    s.base_ground_truth_text = b.base_ground_truth_text := by
  by_cases hi : i < b.items.length
  · by_cases hc : 0 < off ∧ off < 1 ∧ c ≤ (b.items.get (Fin.mk i hi)).text.data.length
    · rw [split_word_eq_some hi hc] at h
      injection h with h
      subst h
      rfl
    · rw [split_word_eq_none_of_invalid (Or.inr ⟨hi, hc⟩)] at h
      cases h
  · rw [split_word_eq_none_of_invalid (Or.inl hi)] at h
    cases h

lemma word_roundtrip (w : Word) : word_from_json (word_to_json w) = some w := by
  obtain ⟨t, ⟨a, b, c, d⟩, g, ms⟩ := w
  cases ms with
  | none => rfl
  | some n => simp [word_to_json, word_from_json, jlookup, List.lookup]

lemma pair_roundtrip (p : ℕ × String) : pair_from_json (pair_to_json p) = some p := by
  obtain ⟨i, t⟩ := p
  simp [pair_to_json, pair_from_json]

lemma attr_roundtrip (p : String × Bool) : attr_from_json (attr_to_json p) = some p := rfl

lemma parseList_map {α β : Type} (f : Json → Option β) (g : α → Json) (h : α → β)
    (hfg : ∀ a, f (g a) = some (h a)) (l : List α) :
    parseList f (l.map g) = some (l.map h) := by
  induction l with
  | nil => rfl
  | cons a as ih => simp [parseList, hfg a, ih]

lemma parseAttrs_map (l : List (String × Bool)) :
    parseAttrs (l.map attr_to_json) = some l := by
  induction l with
  | nil => rfl
  | cons a as ih => simp [parseAttrs, attr_roundtrip, ih]

lemma block_roundtrip (b : Block) : block_from_json (block_to_json b) = some b := by
  obtain ⟨items, base, unmatched, attrs⟩ := b
  simp [block_to_json, block_from_json, jlookup, List.lookup,
    parseList_map word_from_json word_to_json id word_roundtrip,
    parseList_map pair_from_json pair_to_json id pair_roundtrip,
    parseAttrs_map]

lemma page_roundtrip (p : Page) : page_from_json (page_to_json p) = some (stripImage p) := by
  obtain ⟨items, img⟩ := p
  simp [page_to_json, page_from_json, jlookup, stripImage,
    parseList_map block_from_json block_to_json id block_roundtrip]

lemma pyInsert_mem {α : Type} {a x : α} {n : ℕ} {l : List α} (h : a ∈ pyInsert n x l) :
    a = x ∨ a ∈ l := by
  rcases List.mem_append.mp h with h1 | h1
  · exact Or.inr (List.take_subset n l h1)
  · rcases List.mem_cons.mp h1 with h2 | h2
    · exact Or.inl h2
    · exact Or.inr (List.drop_subset n l h2)

lemma insertUnmatched_mem (u : List (ℕ × String)) (acc : List MatchEntry) (e : MatchEntry) :
    e ∈ insertUnmatched u acc → e ∈ acc ∨ ∃ p ∈ u, e = gtWordEntry p := by
  rw [insertUnmatched_eq_foldr]
  induction u with
  | nil => exact fun h => Or.inl h
  | cons p rest ih =>
    intro h
    simp only [List.foldr_cons] at h
    rcases pyInsert_mem h with h1 | h1
    · exact Or.inr ⟨p, List.mem_cons_self p rest, h1⟩
    · rcases ih h1 with h2 | ⟨q, hq, he⟩
      · exact Or.inl h2
      · exact Or.inr ⟨q, List.mem_cons_of_mem p hq, he⟩

lemma withIdx_mem {l : List MatchEntry} {e : MatchEntry} (h : e ∈ withIdx l) :
    ∃ e' ∈ l, e.word = e'.word ∧ e.word_idx = e'.word_idx := by
  rcases List.mem_map.mp h with ⟨⟨i, e'⟩, hmem, he⟩
  refine ⟨e', ?_, by rw [← he], by rw [← he]⟩
  have := List.mem_enum_iff_get?.mp hmem
  exact List.get?_mem this

lemma baseMatches_mem {b : Block} {e : MatchEntry} (h : e ∈ baseMatches b) :
    ∃ i w, e = wordEntry i w ∧ b.items.get? i = some w := by
  rcases List.mem_map.mp h with ⟨⟨i, w⟩, hmem, he⟩
  exact ⟨i, w, he.symm, List.mem_enum_iff_get?.mp hmem⟩

lemma calculate_line_matches_word_val {b : Block} {e : MatchEntry} {w : Word}
    (he : e ∈ calculate_line_matches b) (hw : e.word = some w) :
    b.items.get? e.word_idx = some w := by
  rcases withIdx_mem he with ⟨e', he', hword, hidx⟩
  rw [hword] at hw
  rcases insertUnmatched_mem _ _ _ he' with hb | ⟨p, _, hgt⟩
  · rcases baseMatches_mem hb with ⟨i, w0, hew, hget⟩
    subst hew
    simp only [wordEntry, Option.some.injEq] at hw
    subst hw
    rw [hidx]
    exact hget
  · subst hgt
    simp [gtWordEntry] at hw

/-! Claim theorems. -/

/-- C1: for every line and every structural edit operation offered by the
editors (word split, merge left/right, word or match deletion, ground-truth
text change, copy-OCR-to-ground-truth), the edited line's
`ground_truth_exact_match` is true iff every word has `match_score = 100` and
the line's `unmatched_ground_truth_words` list is empty.  (The property is
derived, so it is re-established by construction after any edit.) -/
theorem ground_truth_exact_match_after_edit (op : EditOp) (b : Block) :
    (applyEdit op b).ground_truth_exact_match = true ↔
      ((∀ w ∈ (applyEdit op b).items, w.match_score = some 100) ∧
        (applyEdit op b).unmatched_ground_truth_words = []) := by
  generalize applyEdit op b = L
  simp [Block.ground_truth_exact_match, List.all_eq_true, List.isEmpty_iff]

/-- C2 counterexample: merging two words does NOT re-run the line's
ground-truth alignment.  On the concrete line with OCR words "a","b" and base
ground truth "ab c", merge-left leaves the merged word's stale assignment
("ab", score 66) and the empty unmatched list untouched, whereas re-running
the alignment engine on the merged line would yield score 100 and the
unmatched pair (0, "c"); so the merged line differs from the realigned one. -/
theorem merge_left_no_realignment_counterexample :
    (ipynb_merge_left sampleLine 1).items.map
        (fun w => (w.ground_truth_text, w.match_score)) = [("ab", some 66)] ∧
    (ipynb_merge_left sampleLine 1).unmatched_ground_truth_words = [] ∧
    (update_line_with_ground_truth (ipynb_merge_left sampleLine 1)
        ((ipynb_merge_left sampleLine 1).items.map Word.text)
        (pySplitSpace (ipynb_merge_left sampleLine 1).base_ground_truth_text)).items.map
        (fun w => (w.ground_truth_text, w.match_score)) = [("ab", some 100)] ∧
    (update_line_with_ground_truth (ipynb_merge_left sampleLine 1)
        ((ipynb_merge_left sampleLine 1).items.map Word.text)
        (pySplitSpace (ipynb_merge_left sampleLine 1).base_ground_truth_text)).unmatched_ground_truth_words =
      [(0, "c")] ∧
    ipynb_merge_left sampleLine 1 ≠
      update_line_with_ground_truth (ipynb_merge_left sampleLine 1)
        ((ipynb_merge_left sampleLine 1).items.map Word.text)
        (pySplitSpace (ipynb_merge_left sampleLine 1).base_ground_truth_text) := by
  decide

/-- C2 as amended: merge-left on adjacent words produces a single word whose
text is the ordered concatenation of the two texts and whose bounding box is
the union of the two boxes, removes the absorbed word and changes nothing else
about the line — in particular the ground-truth alignment is NOT re-run: the
merged word keeps the absorbing word's ground-truth data and
`unmatched_ground_truth_words` is unchanged.  Merge-right (in both editors) at
the previous position is the same operation.  The NiceGUI merge-left resolves
the previous DISPLAY row of the match list: when that row carries the word at
the previous line position it performs the very same merge, but when it is an
unmatched ground-truth row (sitting between the two words' rows) the call is a
silent no-op that leaves the line unchanged. -/
theorem merge_concatenates_and_skips_realignment (b : Block) (k : ℕ)
    (h2 : k + 1 < b.items.length) :
    (ipynb_merge_left b (k + 1)).items =
      b.items.take k ++
        (⟨(b.items.get (Fin.mk k (by omega))).text ++ (b.items.get (Fin.mk (k + 1) h2)).text,
          (b.items.get (Fin.mk k (by omega))).bounding_box.union
            (b.items.get (Fin.mk (k + 1) h2)).bounding_box,
          (b.items.get (Fin.mk k (by omega))).ground_truth_text,
          (b.items.get (Fin.mk k (by omega))).match_score⟩ : Word) :: b.items.drop (k + 2) ∧
    (ipynb_merge_left b (k + 1)).unmatched_ground_truth_words =
      b.unmatched_ground_truth_words ∧
    (ipynb_merge_left b (k + 1)).base_ground_truth_text = b.base_ground_truth_text ∧
    ipynb_merge_right b k = ipynb_merge_left b (k + 1) ∧
    nicegui_merge_right b k = ipynb_merge_left b (k + 1) ∧
    (∀ mi cur prev cw pw, mi ≠ 0 →
      (calculate_line_matches b).get? mi = some cur →
      (calculate_line_matches b).get? (mi - 1) = some prev →
      cur.word = some cw → prev.word = some pw →
      cur.word_idx = k + 1 → prev.word_idx = k →
      nicegui_merge_left b mi = ipynb_merge_left b (k + 1)) ∧
    (∀ mi cur prev, mi ≠ 0 →
      (calculate_line_matches b).get? mi = some cur →
      (calculate_line_matches b).get? (mi - 1) = some prev →
      cur.word.isSome = true → prev.word = none →
      nicegui_merge_left b mi = b) := by
  have hcond : 0 < k + 1 ∧ k + 1 < b.items.length := ⟨by omega, h2⟩
  have hr : k < b.items.length - 1 := by omega
  refine ⟨?_, ?_, ?_, ?_, ?_, ?_, ?_⟩
  · simp only [ipynb_merge_left, dif_pos hcond, Nat.add_sub_cancel]
    exact set_then_eraseIdx b.items k _ h2
  · simp only [ipynb_merge_left, dif_pos hcond]
  · simp only [ipynb_merge_left, dif_pos hcond]
  · simp only [ipynb_merge_left, ipynb_merge_right, dif_pos hcond, dif_pos hr,
      Nat.add_sub_cancel]
  · simp only [ipynb_merge_left, nicegui_merge_right, dif_pos hcond, dif_pos hr,
      Nat.add_sub_cancel]
  · intro mi cur prev cw pw hmi hcur hprev hcw hpw hci hpi
    have hcval : b.items.get? cur.word_idx = some cw :=
      calculate_line_matches_word_val (List.get?_mem hcur) hcw
    have hpval : b.items.get? prev.word_idx = some pw :=
      calculate_line_matches_word_val (List.get?_mem hprev) hpw
    rw [hci] at hcval
    rw [hpi] at hpval
    obtain ⟨hb1, hg1⟩ := List.get?_eq_some.mp hcval
    obtain ⟨hb2, hg2⟩ := List.get?_eq_some.mp hpval
    simp only [nicegui_merge_left, if_neg hmi, hcur, hprev, hcw, hpw, hci, hpi]
    simp only [ipynb_merge_left, dif_pos hcond, Nat.add_sub_cancel]
    rw [hg1, hg2]
  · intro mi cur prev hmi hcur hprev hcw hpw
    rcases Option.isSome_iff_exists.mp hcw with ⟨cw, hcw2⟩
    simp only [nicegui_merge_left, if_neg hmi, hcur, hprev, hcw2, hpw]

/-- Witness for C2's amended theorem at concrete two-word lines: the merge
keeps the unmatched list, and on the line whose unmatched row (1, "x") sits
before the second word's display row, the NiceGUI merge-left at that row is a
no-op. -/
theorem merge_concatenates_and_skips_realignment_witness :
    (0 + 1 < sampleLine.items.length) ∧
    (ipynb_merge_left sampleLine (0 + 1)).unmatched_ground_truth_words =
      sampleLine.unmatched_ground_truth_words ∧
    nicegui_merge_left sampleLineUnmatched 2 = sampleLineUnmatched :=
  ⟨by decide,
   (merge_concatenates_and_skips_realignment sampleLine 0 (by decide)).2.1,
   (merge_concatenates_and_skips_realignment sampleLineUnmatched 0
       (by decide)).2.2.2.2.2.2 2 ⟨1, some sampleWordB, "b", "c", 2⟩
     ⟨1, none, "", "x", 1⟩ (by decide) (by decide) (by decide) (by decide) rfl⟩

/-- C3: for every executed split, in both editors, the result is obtained by
splitting the word, expanding and refining the boxes, and then re-running the
ground-truth alignment of the whole line with the OCR side being the line's
current word texts in order and the ground-truth side being the line's
`base_ground_truth_text` split on spaces (the NiceGUI editor passes an empty
tuple when the base text is empty) — and NOT the previously assigned per-word
ground truth: modifying every word's stored ground-truth data in any way that
keeps texts and boxes leaves the result of the split unchanged. -/
theorem execute_split_realigns_from_base (img : PixelImage) (b : Block) (t : SplitTask)
    (f : Word → Word)
    (hf : ∀ w, (f w).text = w.text ∧ (f w).bounding_box = w.bounding_box) :
    ipynb_execute_split img { b with items := b.items.map f } t =
      ipynb_execute_split img b t ∧
    nicegui_execute_split img { b with items := b.items.map f } t =
      nicegui_execute_split img b t ∧
    ipynb_execute_split img b t =
      (b.split_word t.word_idx (ipynb_normalized_split_offset t (imgWidth img)) t.char_idx).map
        (fun b1 => update_line_with_ground_truth (postSplitGeometry img b1)
          ((postSplitGeometry img b1).items.map Word.text)
          (pySplitSpace b.base_ground_truth_text)) ∧
    nicegui_execute_split img b t =
      (b.split_word t.word_idx (nicegui_normalized_split_offset t) t.char_idx).map
        (fun b1 => update_line_with_ground_truth (postSplitGeometry img b1)
          ((postSplitGeometry img b1).items.map Word.text)
          (if b.base_ground_truth_text ≠ "" then pySplitSpace b.base_ground_truth_text
           else [])) := by
  have hitems : List.Forall₂ SameShape
      ({ b with items := b.items.map f } : Block).items b.items :=
    forall₂_map_sameShape f hf b.items
  refine ⟨?_, ?_, ?_, ?_⟩
  · rcases split_word_shape t.word_idx (ipynb_normalized_split_offset t (imgWidth img))
        t.char_idx hitems rfl rfl rfl with ⟨h1, h2⟩ | ⟨s, s', e1, e2, hsh, hb2, hu2, ha2⟩
    · simp [ipynb_execute_split, h1, h2]
    · simp only [ipynb_execute_split, e1, e2, Option.map_some']
      have hshape := postSplitGeometry_shape img hsh
      have htext := sameShape_texts hshape
      have hbeq : (postSplitGeometry img s).base_ground_truth_text =
          (postSplitGeometry img s').base_ground_truth_text := hb2
      rw [htext, hbeq]
      exact congrArg some (update_line_congr _ _ hshape hb2 hu2 ha2)
  · rcases split_word_shape t.word_idx (nicegui_normalized_split_offset t)
        t.char_idx hitems rfl rfl rfl with ⟨h1, h2⟩ | ⟨s, s', e1, e2, hsh, hb2, hu2, ha2⟩
    · simp [nicegui_execute_split, h1, h2]
    · simp only [nicegui_execute_split, e1, e2, Option.map_some']
      have hshape := postSplitGeometry_shape img hsh
      have htext := sameShape_texts hshape
      have hbeq : (postSplitGeometry img s).base_ground_truth_text =
          (postSplitGeometry img s').base_ground_truth_text := hb2
      rw [htext, hbeq]
      exact congrArg some (update_line_congr _ _ hshape hb2 hu2 ha2)
  · cases hsw : b.split_word t.word_idx (ipynb_normalized_split_offset t (imgWidth img))
        t.char_idx with
    | none => simp [ipynb_execute_split, hsw]
    | some s =>
      have hbeq : (postSplitGeometry img s).base_ground_truth_text =
          b.base_ground_truth_text :=
        (postSplitGeometry_base img s).trans (split_word_base hsw)
      simp only [ipynb_execute_split, hsw, Option.map_some']
      rw [hbeq]
  · cases hsw : b.split_word t.word_idx (nicegui_normalized_split_offset t) t.char_idx with
    | none => simp [nicegui_execute_split, hsw]
    | some s =>
      have hbeq : (postSplitGeometry img s).base_ground_truth_text =
          b.base_ground_truth_text :=
        (postSplitGeometry_base img s).trans (split_word_base hsw)
      simp only [nicegui_execute_split, hsw, Option.map_some']
      rw [hbeq]

/-- Witness for C3 at a concrete line, image, split task and ground-truth
rewriting function. -/
theorem execute_split_realigns_from_base_witness :
    ipynb_execute_split [[false, false]]
        { sampleLine with items := sampleLine.items.map staleGt } ⟨0, 2, 1, 1⟩ =
      ipynb_execute_split [[false, false]] sampleLine ⟨0, 2, 1, 1⟩ :=
  (execute_split_realigns_from_base [[false, false]] sampleLine ⟨0, 2, 1, 1⟩
    staleGt (fun w => ⟨rfl, rfl⟩)).1

/-- C4: serializing a Document (one OCR page plus source metadata, as built by
`export_ocr_document`) to the JSON interchange format and parsing it back
preserves every word's text, bounding box, ground-truth text and match score,
and every line's unmatched ground-truth pairs and attributes, exactly — the
parsed document equals the original with only the (never-persisted) page
images detached.  Image pixel data is never embedded in the JSON: the
serialization is invariant under any change of the page images, and the export
only copies the image file alongside the JSON while recording its path as
`source_path`. -/
theorem document_json_roundtrip (d : Document) :
    document_from_json (document_to_json d) =
      some { d with pages := d.pages.map stripImage } ∧
    (∀ g : Page → Option PixelImage,
      document_to_json
          { d with pages := d.pages.map fun p => { p with cv2_numpy_page_image := g p } } =
        document_to_json d) ∧
    (∀ pg src tgt, (export_ocr_document pg src tgt).1 =
        document_to_json ⟨[pg], "doctr-pgdp-labeled", some tgt⟩ ∧
        (export_ocr_document pg src tgt).2 = (src, tgt)) := by
  refine ⟨?_, ?_, fun pg src tgt => ⟨rfl, rfl⟩⟩
  · obtain ⟨pages, lib, sp⟩ := d
    cases sp with
    | none =>
      simp [document_to_json, document_from_json, jlookup, List.lookup,
        parseList_map page_from_json page_to_json stripImage page_roundtrip]
    | some p =>
      simp [document_to_json, document_from_json, jlookup, List.lookup,
        parseList_map page_from_json page_to_json stripImage page_roundtrip]
  · intro g
    simp [document_to_json, page_to_json, List.map_map]

/-- C5: importing a persisted document whose page count is not exactly one, or
which lacks a source image path, raises an error and leaves the
`matched_ocr_pages` cache untouched — the caller never receives a
partially-populated result. -/
theorem labeler_import_rejects_malformed (doc : Document)
    (disk : String → Option PixelImage) (idx : ℕ) (cache : OcrCache)
    (h : doc.pages.length ≠ 1 ∨ doc.source_path = none) :
    (labeler_import_ocr_document (some doc) disk idx cache).1 = cache ∧
    (labeler_import_ocr_document (some doc) disk idx cache).2.isSome = true := by
  obtain ⟨pages, lib, sp⟩ := doc
  match pages, sp with
  | [], _ => exact ⟨rfl, rfl⟩
  | [pg], some p => simp at h
  | [pg], none => exact ⟨rfl, rfl⟩
  | a :: b :: rest, _ => exact ⟨rfl, rfl⟩

/-- Witness for C5 at a concrete pageless document. -/
theorem labeler_import_rejects_malformed_witness :
    ((⟨[], "doctr-pgdp-labeled", none⟩ : Document).pages.length ≠ 1 ∨
      (⟨[], "doctr-pgdp-labeled", none⟩ : Document).source_path = none) ∧
    (labeler_import_ocr_document (some ⟨[], "doctr-pgdp-labeled", none⟩)
        (fun _ => none) 0 []).1 = [] :=
  ⟨Or.inl (by decide),
   (labeler_import_rejects_malformed ⟨[], "doctr-pgdp-labeled", none⟩
     (fun _ => none) 0 [] (Or.inl (by decide))).1⟩

/-- C6 counterexample: `run_ocr` does NOT always leave the cached Page as is
when navigating back to a cached page.  With a saved one-page document on
disk, a cached page at index 0 and no forced refresh, the engine is not
invoked, but the cache entry is replaced by the imported page, which differs
from the cached one. -/
theorem run_ocr_import_replaces_cached_page_counterexample :
    (run_ocr (some ⟨[⟨[], none⟩], "doctr-pgdp-labeled", some "img.png"⟩)
        (fun _ => none) (fun _ => samplePage) 0 false [(0, samplePage)]).2.2 = false ∧
    cacheLookup (run_ocr (some ⟨[⟨[], none⟩], "doctr-pgdp-labeled", some "img.png"⟩)
        (fun _ => none) (fun _ => samplePage) 0 false [(0, samplePage)]).1 0 =
      some ⟨[], none⟩ ∧
    (⟨[], none⟩ : Page) ≠ samplePage := by
  decide

/-- C6 as amended: `run_ocr` invokes the OCR engine only when the page index
has no cache entry or a forced refresh was requested; navigating back to a
cached page never re-runs the engine, and leaves the cached Page as is
provided no saved labeled document exists for the page — when one exists, the
cached entry is first replaced by the document imported from disk (still
without invoking the engine); a successful forced refresh fully replaces the
cache entry with the freshly constructed engine page. -/
theorem run_ocr_engine_invocation_policy (saved : Option Document)
    (disk : String → Option PixelImage) (engine : ℕ → Page) (idx : ℕ) (force : Bool)
    (cache : OcrCache) :
    ((run_ocr saved disk engine idx force cache).2.2 = true →
        cacheLookup cache idx = none ∨ force = true) ∧
    ((cacheLookup cache idx).isSome = true → force = false →
        (run_ocr saved disk engine idx force cache).2.2 = false) ∧
    (saved = none → (cacheLookup cache idx).isSome = true → force = false →
        run_ocr saved disk engine idx force cache = (cache, none, false)) ∧
    (∀ doc pg p, saved = some doc → doc.pages = [pg] → doc.source_path = some p →
        force = false →
        run_ocr saved disk engine idx force cache =
          (cacheInsert cache idx { pg with cv2_numpy_page_image := disk p }, none, false)) ∧
    (force = true → (run_ocr saved disk engine idx force cache).2.1 = none →
        cacheLookup (run_ocr saved disk engine idx force cache).1 idx =
          some (engine idx)) := by
  match saved with
  | none =>
    refine ⟨?_, ?_, ?_, ?_, ?_⟩
    · intro h
      by_cases hf : force = true
      · right; exact hf
      · left
        by_cases hn : cacheLookup cache idx = none
        · exact hn
        · exfalso
          simp [run_ocr, labeler_import_ocr_document, hf, hn] at h
    · intro hs hf
      have hn : ¬ cacheLookup cache idx = none := by
        intro hn; simp [hn] at hs
      simp [run_ocr, labeler_import_ocr_document, hf, hn]
    · intro _ hs hf
      have hn : ¬ cacheLookup cache idx = none := by
        intro hn; simp [hn] at hs
      simp [run_ocr, labeler_import_ocr_document, hf, hn]
    · intro doc pg p hdoc; exact absurd hdoc (by simp)
    · intro hf _
      simp [run_ocr, labeler_import_ocr_document, hf, cacheLookup_insert_self]
  | some doc =>
    obtain ⟨pages, lib, sp⟩ := doc
    match pages, sp with
    | [pg], some p =>
      refine ⟨?_, ?_, ?_, ?_, ?_⟩
      · intro h
        by_cases hf : force = true
        · right; exact hf
        · exfalso
          simp [run_ocr, labeler_import_ocr_document, hf, cacheLookup_insert_self] at h
      · intro hs hf
        simp [run_ocr, labeler_import_ocr_document, hf, cacheLookup_insert_self]
      · intro h; simp at h
      · intro doc2 pg2 p2 hdoc hpages hsp hf
        injection hdoc with hdoc
        subst hdoc
        simp at hpages hsp
        subst hpages; subst hsp
        simp [run_ocr, labeler_import_ocr_document, hf, cacheLookup_insert_self]
      · intro hf _
        simp [run_ocr, labeler_import_ocr_document, hf, cacheLookup_insert_self]
    | [pg], none =>
      refine ⟨?_, ?_, ?_, ?_, ?_⟩
      · intro h; simp [run_ocr, labeler_import_ocr_document] at h
      · intro _ _; simp [run_ocr, labeler_import_ocr_document]
      · intro h; simp at h
      · intro doc2 pg2 p2 hdoc hpages hsp hf
        injection hdoc with hdoc; subst hdoc; simp at hsp
      · intro _ h; simp [run_ocr, labeler_import_ocr_document] at h
    | [], _ =>
      refine ⟨?_, ?_, ?_, ?_, ?_⟩
      · intro h; simp [run_ocr, labeler_import_ocr_document] at h
      · intro _ _; simp [run_ocr, labeler_import_ocr_document]
      · intro h; simp at h
      · intro doc2 pg2 p2 hdoc hpages hsp hf
        injection hdoc with hdoc; subst hdoc; simp at hpages
      · intro _ h; simp [run_ocr, labeler_import_ocr_document] at h
    | a :: b :: rest, _ =>
      refine ⟨?_, ?_, ?_, ?_, ?_⟩
      · intro h; simp [run_ocr, labeler_import_ocr_document] at h
      · intro _ _; simp [run_ocr, labeler_import_ocr_document]
      · intro h; simp at h
      · intro doc2 pg2 p2 hdoc hpages hsp hf
        injection hdoc with hdoc; subst hdoc; simp at hpages
      · intro _ h; simp [run_ocr, labeler_import_ocr_document] at h

/-- Witness for C6's amended theorem: with no saved document, a cached page
and no forced refresh, the call is a complete no-op. -/
theorem run_ocr_engine_invocation_policy_witness :
    run_ocr none (fun _ => none) (fun _ => samplePage) 0 false [(0, samplePage)] =
      ([(0, samplePage)], none, false) :=
  (run_ocr_engine_invocation_policy none (fun _ => none) (fun _ => samplePage) 0 false
    [(0, samplePage)]).2.2.1 rfl (by decide) rfl

/-- C7 counterexample: in the ipynb editor the `bbox_split_offset` passed to
`split_word` is the split pixel coordinate divided by the FULL page image
width, not by the width of the word's cropped image: on a page of width 4 with
a word image of width 2 and split coordinate 1 the two quotients differ. -/
theorem ipynb_split_offset_counterexample :
    imgWidth [[false, false, false, false]] = 4 ∧
    ipynb_normalized_split_offset ⟨0, 2, 1, 1⟩ 4 ≠ (1 : ℚ) / 2 ∧
    nicegui_normalized_split_offset ⟨0, 2, 1, 1⟩ = (1 : ℚ) / 2 := by
  refine ⟨rfl, ?_, ?_⟩
  · norm_num [ipynb_normalized_split_offset]
  · norm_num [nicegui_normalized_split_offset]

/-- C7 as amended: only the NiceGUI editor normalizes the split coordinate by
the word's own cropped-image width; the ipynb editor divides the same
coordinate by the full page image width.  In both editors the resulting offset
lies strictly between 0 and 1 whenever the coordinate is strictly inside the
word image (and the word image is no wider than the page). -/
theorem split_offset_normalization_bounds (t : SplitTask) (full_w : ℕ)
    (h1 : 0 < t.x) (h2 : t.x < t.img_w) (h3 : t.img_w ≤ full_w) :
    nicegui_normalized_split_offset t = (t.x : ℚ) / (t.img_w : ℚ) ∧
    0 < nicegui_normalized_split_offset t ∧ nicegui_normalized_split_offset t < 1 ∧
    ipynb_normalized_split_offset t full_w = (t.x : ℚ) / (full_w : ℚ) ∧
    0 < ipynb_normalized_split_offset t full_w ∧
    ipynb_normalized_split_offset t full_w < 1 := by
  have hx : (0 : ℚ) < t.x := by exact_mod_cast h1
  have hw : (0 : ℚ) < t.img_w := by exact_mod_cast Nat.lt_trans h1 h2
  have hfw : (0 : ℚ) < full_w := by
    exact_mod_cast Nat.lt_of_lt_of_le (Nat.lt_trans h1 h2) h3
  refine ⟨rfl, div_pos hx hw, (div_lt_one hw).mpr ?_, rfl, div_pos hx hfw,
    (div_lt_one hfw).mpr ?_⟩
  · exact_mod_cast h2
  · exact_mod_cast Nat.lt_of_lt_of_le h2 h3

/-- Witness for C7's amended theorem at concrete widths. -/
theorem split_offset_normalization_bounds_witness :
    0 < nicegui_normalized_split_offset ⟨0, 2, 1, 1⟩ ∧
    nicegui_normalized_split_offset ⟨0, 2, 1, 1⟩ < 1 ∧
    0 < ipynb_normalized_split_offset ⟨0, 2, 1, 1⟩ 4 ∧
    ipynb_normalized_split_offset ⟨0, 2, 1, 1⟩ 4 < 1 :=
  ⟨(split_offset_normalization_bounds ⟨0, 2, 1, 1⟩ 4 (by decide) (by decide)
      (by decide)).2.1,
   (split_offset_normalization_bounds ⟨0, 2, 1, 1⟩ 4 (by decide) (by decide)
      (by decide)).2.2.1,
   (split_offset_normalization_bounds ⟨0, 2, 1, 1⟩ 4 (by decide) (by decide)
      (by decide)).2.2.2.2.1,
   (split_offset_normalization_bounds ⟨0, 2, 1, 1⟩ 4 (by decide) (by decide)
      (by decide)).2.2.2.2.2⟩

/-- C8: for a line whose unmatched ground-truth pairs have nondecreasing
insertion indices within the word range, `calculate_line_matches` returns
exactly the interleaving that places, after each OCR word's row (words in line
order), the rows of the unmatched pairs whose insertion index is that word's
position, preserving the stored order of the pairs; and its length is the
number of words plus the number of unmatched pairs. -/
theorem calculate_line_matches_interleaving (b : Block)
    (hs : b.unmatched_ground_truth_words.Pairwise fun p q => p.1 ≤ q.1)
    (hb : ∀ p ∈ b.unmatched_ground_truth_words, p.1 < b.items.length) :
    calculate_line_matches b =
      withIdx (specRows b.items b.unmatched_ground_truth_words) ∧
    (calculate_line_matches b).length =
      b.items.length + b.unmatched_ground_truth_words.length := by
  constructor
  · rw [calculate_line_matches, baseMatches,
      insertUnmatched_eq_specRows b.items b.unmatched_ground_truth_words hs hb]
  · rw [calculate_line_matches, withIdx_length, insertUnmatched_length]
    simp [baseMatches]

/-- Witness for C8 at a concrete line with two words and two unmatched
pairs. -/
theorem calculate_line_matches_interleaving_witness :
    sampleLineUnmatched.unmatched_ground_truth_words.Pairwise
      (fun p q => p.1 ≤ q.1) ∧
    (calculate_line_matches sampleLineUnmatched).length =
      sampleLineUnmatched.items.length +
        sampleLineUnmatched.unmatched_ground_truth_words.length :=
  ⟨by decide,
   (calculate_line_matches_interleaving sampleLineUnmatched (by decide) (by decide)).2⟩

/-- C9: for a nonempty line, the first row of the match list is the first
word's row (so merge-left on the first word is the `match_idx = 0` call), and
invoking merge-left on the first word or merge-right on the last word, in
either editor, is a guarded no-op that returns the line unchanged. -/
theorem merge_boundary_guard_noop (b : Block) (h : b.items ≠ []) :
    (calculate_line_matches b).head? = b.items.head?.map (fun w => wordEntry 0 w) ∧
    nicegui_merge_left b 0 = b ∧
    ipynb_merge_left b 0 = b ∧
    nicegui_merge_right b (b.items.length - 1) = b ∧
    ipynb_merge_right b (b.items.length - 1) = b := by
  refine ⟨?_, by simp [nicegui_merge_left], by simp [ipynb_merge_left],
    by simp [nicegui_merge_right], by simp [ipynb_merge_right]⟩
  obtain ⟨w, ws, hl⟩ : ∃ w ws, b.items = w :: ws := by
    cases hbi : b.items with
    | nil => exact absurd hbi h
    | cons w ws => exact ⟨w, ws, rfl⟩
  have hbase : baseMatches b =
      wordEntry 0 w :: ((ws.enumFrom 1).map fun q => wordEntry q.1 q.2) := by
    simp [baseMatches, hl, List.enum_cons]
  have hne : baseMatches b ≠ [] := by rw [hbase]; simp
  obtain ⟨hh, _⟩ := insertUnmatched_head b.unmatched_ground_truth_words (baseMatches b) hne
  have hc : (calculate_line_matches b).head? =
      (baseMatches b).head?.map (fun e => { e with idx := 0 }) := by
    rw [calculate_line_matches, withIdx_head, hh]
  rw [hc, hbase, hl]
  simp [wordEntry]

/-- Witness for C9 at a concrete two-word line. -/
theorem merge_boundary_guard_noop_witness :
    sampleLine.items ≠ [] ∧ nicegui_merge_left sampleLine 0 = sampleLine :=
  ⟨by decide, (merge_boundary_guard_noop sampleLine (by decide)).2.1⟩

/-- C10 counterexample: deleting the unmatched-entry row built from the pair
(0, "x") removes more than the selected pair.  On a line whose unmatched list
is [(0, "x"), (1, "q"), (3, "x")] the claim predicts the result
[(1, "q"), (3, "x")], but the code deletes (1, "q") as well (its insertion
index equals the selected row's `word_idx` = 1) and (3, "x") as well (it
shares the text), leaving the empty list. -/
theorem delete_match_over_deletes_counterexample :
    (delete_match ⟨[], "", [(0, "x"), (1, "q"), (3, "x")], []⟩
        (gtWordEntry (0, "x"))).unmatched_ground_truth_words = [] ∧
    (delete_match ⟨[], "", [(0, "x"), (1, "q"), (3, "x")], []⟩
        (gtWordEntry (0, "x"))).unmatched_ground_truth_words ≠ [(1, "q"), (3, "x")] := by
  decide

/-- C10 as amended: `delete_match` on the unmatched-entry row of the pair
(i, t) keeps exactly the pairs whose insertion index differs from i + 1 (the
row's `word_idx`) AND whose text differs from t.  The selected pair itself is
always removed (its text matches), but so is every other pair with text t and
every pair with insertion index i + 1. -/
theorem delete_match_filter_behavior (b : Block) (i : ℕ) (t : String)
    (hmem : (i, t) ∈ b.unmatched_ground_truth_words) :
    ((i, t) ∉ (delete_match b (gtWordEntry (i, t))).unmatched_ground_truth_words) ∧
    (∀ p : ℕ × String,
      p ∈ (delete_match b (gtWordEntry (i, t))).unmatched_ground_truth_words ↔
        (p ∈ b.unmatched_ground_truth_words ∧ p.1 ≠ i + 1 ∧ p.2 ≠ t)) := by
  constructor
  · simp [delete_match, gtWordEntry, delete_match_unmatched, List.mem_filter]
  · intro p
    simp [delete_match, gtWordEntry, delete_match_unmatched, List.mem_filter, and_assoc]

/-- Witness for C10's amended theorem at a concrete line. -/
theorem delete_match_filter_behavior_witness :
    ((0 : ℕ), "x") ∈ sampleLineUnmatched.unmatched_ground_truth_words ∧
    ((0 : ℕ), "x") ∉
      (delete_match sampleLineUnmatched (gtWordEntry (0, "x"))).unmatched_ground_truth_words :=
  ⟨by decide, (delete_match_filter_behavior sampleLineUnmatched 0 "x" (by decide)).1⟩
